/-
  Formal verification of the h2v HPACK Huffman codec core.

  This file gives a shallow embedding, in Lean 4, of the Huffman encoder
  and decoder of the h2v repository and settles a list of claims about
  them.  The embedded functions are translated from:

  * `src/hpack/src/h2v/hpack/codegen/huffman_table_gen_v1_main.cc`
    (the RFC 7541 Appendix B codebook arrays `CODE`/`LEN`, the Huffman
    trie construction, the BFS state numbering, the full-byte FSM table
    `kByteDecodeTable` and the accepting-state table `kAccepting`);
  * `src/hpack/inc/h2v/hpack/huffman_codec.h`
    (`FastEncode`, the bit-operation encoder, and `FastDecode`, the
    4-bit-nibble FSM decoder);
  * `src/hpack/src/h2v/hpack/huffman_codec.cc`
    (`HuffmanCodec::Decode`, the full-byte FSM decoder).

  The generated tables used by `FastDecode` (`kNibbleDecodeTable`,
  `kBitTableNibble`, `kAcceptingNibbleBits`) are produced by a v2
  generator that is not part of the sources; those tables are modelled
  from the specification, as flagged by doc comments below.

  Machine integers are modelled as `Nat` with explicit reductions
  (`% 2 ^ 64`, `% 256`, ...) where C++ conversions or overflow occur.
  Decoder states, which the C++ represents as BFS indices into the trie
  node array, are represented either by their trie path (a `List Bool`,
  in bijection with the BFS index; used for the nibble decoder whose
  behaviour never depends on the numeric value of a state) or by the
  numeric BFS index itself (used for the full-byte decoder, whose
  table-lookup arithmetic on the index is semantically significant).
-/
import Mathlib

set_option maxRecDepth 1000000

namespace H2v

/-! ### The RFC 7541 Appendix B codebook

Transcribed from the arrays `CODE` and `LEN` of
`huffman_table_gen_v1_main.cc` (the same constants the runtime uses via
`huffman_table.h`).  Entry 256 is the EOS symbol. -/

/-- Codeword bit patterns, right-justified (`CODE` array of the sources). -/
def CODE : List Nat := [
  8184, 8388568, 268435426, 268435427, 268435428, 268435429, 268435430, 268435431, 268435432, 16777194, 1073741820, 268435433,
  268435434, 1073741821, 268435435, 268435436, 268435437, 268435438, 268435439, 268435440, 268435441, 268435442, 1073741822, 268435443,
  268435444, 268435445, 268435446, 268435447, 268435448, 268435449, 268435450, 268435451, 20, 1016, 1017, 4090,
  8185, 21, 248, 2042, 1018, 1019, 249, 2043, 250, 22, 23, 24,
  0, 1, 2, 25, 26, 27, 28, 29, 30, 31, 92, 251,
  32764, 32, 4091, 1020, 8186, 33, 93, 94, 95, 96, 97, 98,
  99, 100, 101, 102, 103, 104, 105, 106, 107, 108, 109, 110,
  111, 112, 113, 114, 252, 115, 253, 8187, 524272, 8188, 16380, 34,
  32765, 3, 35, 4, 36, 5, 37, 38, 39, 6, 116, 117,
  40, 41, 42, 7, 43, 118, 44, 8, 9, 45, 119, 120,
  121, 122, 123, 32766, 2044, 16381, 8189, 268435452, 1048550, 4194258, 1048551, 1048552,
  4194259, 4194260, 4194261, 8388569, 4194262, 8388570, 8388571, 8388572, 8388573, 8388574, 16777195, 8388575,
  16777196, 16777197, 4194263, 8388576, 16777198, 8388577, 8388578, 8388579, 8388580, 2097116, 4194264, 8388581,
  4194265, 8388582, 8388583, 16777199, 4194266, 2097117, 1048553, 4194267, 4194268, 8388584, 8388585, 2097118,
  8388586, 4194269, 4194270, 16777200, 2097119, 4194271, 8388587, 8388588, 2097120, 2097121, 4194272, 2097122,
  8388589, 4194273, 8388590, 8388591, 1048554, 4194274, 4194275, 4194276, 8388592, 4194277, 4194278, 8388593,
  67108832, 67108833, 1048555, 524273, 4194279, 8388594, 4194280, 33554412, 67108834, 67108835, 67108836, 134217694,
  134217695, 67108837, 16777201, 33554413, 524274, 2097123, 67108838, 134217696, 134217697, 67108839, 134217698, 16777202,
  2097124, 2097125, 67108840, 67108841, 268435453, 134217699, 134217700, 134217701, 1048556, 16777203, 1048557, 2097126,
  4194281, 2097127, 2097128, 8388595, 4194282, 4194283, 33554414, 33554415, 16777204, 16777205, 67108842, 8388596,
  67108843, 134217702, 67108844, 67108845, 134217703, 134217704, 134217705, 134217706, 134217707, 268435454, 134217708, 134217709,
  134217710, 134217711, 134217712, 67108846, 1073741823]

/-- Codeword bit lengths (`LEN` array of the sources). -/
def LEN : List Nat := [
  13, 23, 28, 28, 28, 28, 28, 28, 28, 24, 30, 28,
  28, 30, 28, 28, 28, 28, 28, 28, 28, 28, 30, 28,
  28, 28, 28, 28, 28, 28, 28, 28, 6, 10, 10, 12,
  13, 6, 8, 11, 10, 10, 8, 11, 8, 6, 6, 6,
  5, 5, 5, 6, 6, 6, 6, 6, 6, 6, 7, 8,
  15, 6, 12, 10, 13, 6, 7, 7, 7, 7, 7, 7,
  7, 7, 7, 7, 7, 7, 7, 7, 7, 7, 7, 7,
  7, 7, 7, 7, 8, 7, 8, 13, 19, 13, 14, 6,
  15, 5, 6, 5, 6, 5, 6, 6, 6, 5, 7, 7,
  6, 6, 6, 5, 6, 7, 6, 5, 5, 6, 7, 7,
  7, 7, 7, 15, 11, 14, 13, 28, 20, 22, 20, 20,
  22, 22, 22, 23, 22, 23, 23, 23, 23, 23, 24, 23,
  24, 24, 22, 23, 24, 23, 23, 23, 23, 21, 22, 23,
  22, 23, 23, 24, 22, 21, 20, 22, 22, 23, 23, 21,
  23, 22, 22, 24, 21, 22, 23, 23, 21, 21, 22, 21,
  23, 22, 23, 23, 20, 22, 22, 22, 23, 22, 22, 23,
  26, 26, 20, 19, 22, 23, 22, 25, 26, 26, 26, 27,
  27, 26, 24, 25, 19, 21, 26, 27, 27, 26, 27, 24,
  21, 21, 26, 26, 28, 27, 27, 27, 20, 24, 20, 21,
  22, 21, 21, 23, 22, 22, 25, 25, 24, 24, 26, 23,
  26, 27, 26, 26, 27, 27, 27, 27, 27, 28, 27, 27,
  27, 27, 27, 26, 30]

/-- Lookup `code(sym)`: the codeword of a symbol (0..256). -/
def code (sym : Nat) : Nat := CODE.getD sym 0

/-- Lookup `length(sym)`: the bit length of a symbol codeword (0..256). -/
def len (sym : Nat) : Nat := LEN.getD sym 0

/-- The codeword of `sym` as a list of bits, most significant first
(the C++ walks bit `length-1` down to bit `0`). -/
def codeBits (sym : Nat) : List Bool :=
  (List.range (len sym)).map (fun i => (code sym >>> (len sym - 1 - i)) % 2 = 1)

/-! ### The Huffman trie

Translation of the `Node` pointer trie of `huffman_table_gen_v1_main.cc`:
`child[0]`/`child[1]` become `Option` children, `symbol = -1` becomes
`none`. -/

/-- A trie node: optional symbol, optional 0-child and 1-child. -/
inductive HNode where
  | mk (sym : Option Nat) (c0 c1 : Option HNode)

/-- The symbol stored at a node. -/
def HNode.sym : HNode → Option Nat
  | .mk s _ _ => s

/-- Child `child[bit]` of a node. -/
def HNode.child : HNode → Bool → Option HNode
  | .mk _ c0 c1, b => if b then c1 else c0

/-- Insert one codeword: walk the bits, creating nodes as needed, and mark
the terminal node with the symbol (the insertion loop of `main`). -/
def insertCode : HNode → List Bool → Nat → HNode
  | .mk _ c0 c1, [], s => .mk (some s) c0 c1
  | .mk sy c0 c1, b :: rest, s =>
    let sub := match (if b then c1 else c0) with
      | some n => n
      | none => .mk none none none
    let sub := insertCode sub rest s
    if b then .mk sy c0 (some sub) else .mk sy (some sub) c1

/-- The trie built from all 257 codewords (`for sym in 0..=256`). -/
def rootTrie : HNode :=
  (List.range 257).foldl (fun t s => insertCode t (codeBits s) s) (.mk none none none)

/-- The node reached from `n` by following a bit path. -/
def nodeAtAux : HNode → List Bool → Option HNode
  | n, [] => some n
  | n, b :: p =>
    match n.child b with
    | none => none
    | some c => nodeAtAux c p

/-- The trie node at a given path from the root (identifies the C++
pointer `Node*` by its path). -/
def nodeAt (p : List Bool) : Option HNode := nodeAtAux rootTrie p

/-- One bit-step of the decoding FSM: descend to `child[b]`; no child is
an error; reaching a node that carries a symbol emits it and resets to
the root (the common walking step of the generators and of the bit-step
FSM).  The state is the trie path; `none` in the result is the error
case, and the emitted symbol (if any) is returned unreduced. -/
def stepBit (p : List Bool) (b : Bool) : Option (List Bool × Option Nat) :=
  match nodeAt (p ++ [b]) with
  | none => none
  | some n =>
    match n.sym with
    | some s => some ([], some s)
    | none => some (p ++ [b], none)

/-! ### The bit-operation encoder `FastEncode`

Translation of `huffman::FastEncode` from `huffman_codec.h` (lines
116-205).  `acc` is the 64-bit accumulator, `bits` the pending bit
count; the flush loop emits the top 32 bits as four big-endian bytes
whenever `bits >= 32`. -/

/-- The `while (bits >= 32)` flush loop of `FastEncode`, with a
structural fuel argument (each iteration removes 32 bits, so any
`fuel ≥ bits` runs the loop to completion). -/
def flush32Aux : Nat → Nat → Nat → List Nat → Nat × Nat × List Nat
  | 0, acc, bits, out => (acc, bits, out)
  | fuel + 1, acc, bits, out =>
    if 32 ≤ bits then
      let word := (acc >>> (bits - 32)) % 2 ^ 32
      let out := out ++
        [(word >>> 24) % 256, (word >>> 16) % 256, (word >>> 8) % 256, word % 256]
      flush32Aux fuel (acc % 2 ^ (bits - 32)) (bits - 32) out
    else (acc, bits, out)

/-- The `while (bits >= 32)` flush loop of `FastEncode`. -/
def flush32 (acc bits : Nat) (out : List Nat) : Nat × Nat × List Nat :=
  flush32Aux bits acc bits out

/-- The per-symbol body of the `FastEncode` main loop:
`acc = (acc << clen) | cw; bits += clen;` then the flush loop.
The byte read is reduced `% 256` (`uint8_t sym = in[i]`) and the
accumulator `% 2 ^ 64` (it is a `uint64_t`). -/
def encStep : Nat × Nat × List Nat → Nat → Nat × Nat × List Nat
  | (acc, bits, out), byte =>
    let sym := byte % 256
    let acc := ((acc <<< len sym) ||| code sym) % 2 ^ 64
    flush32 acc (bits + len sym) out

/-- The byte-writing loop of the final-padding block of `FastEncode`
(`for (int s = 24; s >= 0; s -= 8)` with the `bits + pad <= 0` break).
`bp` plays the role of `bits + pad`; it is an `Int` because the C++
`bits` counter goes negative here. -/
def padLoop (tmp : Nat) (bp : Int) : List Nat → List Nat
  | [] => []
  | s :: rest =>
    if bp ≤ 0 then []
    else ((tmp >>> s) % 256) :: padLoop tmp (bp - 8) rest

/-- The final-padding block of `FastEncode` (lines 188-201), entered when
`bits > 0`.  Note `pad = 8 - (bits & 7)` is `8`, not `0`, when `bits` is
a positive multiple of 8. -/
def padTailBytes (acc bits : Nat) : List Nat :=
  let pad := 8 - bits % 8
  let tmp := (acc <<< (32 - bits)) ||| (((1 <<< pad) - 1) <<< (32 - bits - pad))
  padLoop tmp ((bits : Int) + pad) [24, 16, 8, 0]

/-- The byte sequence `FastEncode` writes for a given input. -/
def fastEncodeBytes (input : List Nat) : List Nat :=
  let r := input.foldl encStep (0, 0, [])
  if 0 < r.2.1 then r.2.2 ++ padTailBytes r.1 r.2.1 else r.2.2

/-- Function `FastEncode` with its precondition checks.  A null `in_ptr`/`out_ptr`
is modelled by the Bool flags; the result is
`(error code, bytes written, out_size)`. -/
def fastEncode (inNull outNull : Bool) (input : List Nat) : Nat × List Nat × Nat :=
  if input.length = 0 then (0, [], 0)
  else if inNull then (1, [], 0)
  else if outNull then (2, [], 0)
  else
    let bytes := fastEncodeBytes input
    (0, bytes, bytes.length)

/-! ### The wire format of the specification

These two definitions follow the words of the specification (section 6,
"Wire format"), not the code: B is the MSB-first concatenation of the
codewords, P is `(8 - |B| mod 8) mod 8` one-bits, and E is the
big-endian octet packing of `B ++ P`.  They exist to be compared with
`fastEncodeBytes`. -/

/-- Big-endian octet packing of a bit list whose length is a multiple
of 8 (spec definition). -/
def specPackBits : List Bool → List Nat
  | b7 :: b6 :: b5 :: b4 :: b3 :: b2 :: b1 :: b0 :: rest =>
    ((if b7 then 128 else 0) + (if b6 then 64 else 0) + (if b5 then 32 else 0) +
     (if b4 then 16 else 0) + (if b3 then 8 else 0) + (if b2 then 4 else 0) +
     (if b1 then 2 else 0) + (if b0 then 1 else 0)) :: specPackBits rest
  | _ => []

/-- The byte sequence E of the specification: pack `B ++ P` where `B`
concatenates the codewords of the input and `P` is
`(8 - |B| mod 8) mod 8` one-bits (spec definition). -/
def specWireBytes (input : List Nat) : List Nat :=
  let B := (input.map (fun b => codeBits (b % 256))).foldr (· ++ ·) []
  specPackBits (B ++ List.replicate ((8 - B.length % 8) % 8) true)

/-! ### The nibble-FSM decoder `FastDecode`

Translation of `huffman::FastDecode` from `huffman_codec.h` (lines
481-595).  The tables it reads (`kNibbleDecodeTable`, `kBitTableNibble`,
`kAcceptingNibbleBits`) come from a generated header that is not in the
sources, so they are modelled from the specification (sections 3 and
4.B): the nibble FSM walks 4 bits per entry through the trie, a
transition with no child or one reaching the EOS leaf mid-stream is an
error entry, the bit-step FSM walks a single bit, and the accepting set
is the set of states at which valid RFC padding can complete a decode
(the root, or a state whose bits into the current code are 1-7 one-bits,
the top bits of EOS). -/

/-- The four bits of a nibble, most significant first. -/
def nibbleBits (nib : Nat) : List Bool :=
  [(nib >>> 3) % 2 = 1, (nib >>> 2) % 2 = 1, (nib >>> 1) % 2 = 1, nib % 2 = 1]

/-- Modelled from the spec: one entry of `kNibbleDecodeTable`, unpacked.
Walk the 4 bits of the nibble through the trie from the state `p`;
`none` models an error entry (high bit set): an undefined transition or
one that reaches the EOS leaf, which the generator must mark as an
error.  Otherwise the result is the next state and the emitted octets
(at most two, each a symbol in 0..255). -/
def nibbleWalk (p : List Bool) (bs : List Bool) (emits : List Nat) :
    Option (List Bool × List Nat) :=
  match bs with
  | [] => some (p, emits)
  | b :: rest =>
    match stepBit p b with
    | none => none
    | some (p1, none) => nibbleWalk p1 rest emits
    | some (p1, some s) =>
      if s = 256 then none else nibbleWalk p1 rest (emits ++ [s])

/-- Modelled from the spec: the nibble-table entry at `(state, nib)`. -/
def nibbleEntry (p : List Bool) (nib : Nat) : Option (List Bool × List Nat) :=
  nibbleWalk p (nibbleBits nib) []

/-- The main loop of `FastDecode`: two nibble lookups per input byte
(high nibble, then low nibble), appending the emitted octets.  Returns
the final state (`none` on an invalid-prefix error) and the bytes
written so far. -/
def nibbleRunBytes : List Bool → List Nat → Option (List Bool) × List Nat
  | st, [] => (some st, [])
  | st, byte :: rest =>
    let b := byte % 256
    match nibbleEntry st ((b >>> 4) % 16) with
    | none => (none, [])
    | some (st1, e1) =>
      match nibbleEntry st1 (b % 16) with
      | none => (none, e1)
      | some (st2, e2) =>
        let r := nibbleRunBytes st2 rest
        (r.1, e1 ++ e2 ++ r.2)

/-- Modelled from the spec: `kBitTableNibble[s][1]`, the bit-step FSM
entry for bit '1': next state (root on symbol emission) or error. -/
def bitOne (p : List Bool) : Option (List Bool) :=
  match stepBit p true with
  | none => none
  | some (p1, _) => some p1

/-- Modelled from the spec: the accepting bitmap
(`kAcceptingNibbleBits`): a state can end a decode validly iff it is the
root or its bits into the current code are 1-7 one-bits (valid RFC
padding, the top bits of EOS). -/
def acceptingNibble (p : List Bool) : Bool :=
  p.all (· = true) && decide (p.length ≤ 7)

/-- The inner walk of the padding check: feed `pad` one-bits through the
bit-step FSM (`none` when an entry signals an error). -/
def padWalk : List Bool → Nat → Option (List Bool)
  | p, 0 => some p
  | p, k + 1 =>
    match bitOne p with
    | none => none
    | some p1 => padWalk p1 k

/-- The padding/EOS check of `FastDecode`: try every pad length 0..7 and
accept as soon as the reached state is accepting. -/
def padAccepts (st : List Bool) : Bool :=
  (List.range 8).any (fun pad =>
    match padWalk st pad with
    | none => false
    | some s0 => acceptingNibble s0)

/-- Function `FastDecode` with its precondition checks: result is
`(error code, bytes written, out_size after the call)`.  `outSize0` is
the caller's value of the `out_size` reference, which the C++ assigns
only on the empty-input path and on success.  Error codes follow
`HPACK_ERR`: 1 `INPUT_NULL_PTR`, 2 `OUTPUT_NULL_PTR`,
7 `HUFFMAN_DECODE_INVALID_PREFIX_NIBBLE`,
9 `HUFFMAN_DECODE_INVALID_EOS_PADDING_NIBBLE`. -/
def fastDecode (inNull outNull : Bool) (input : List Nat) (outSize0 : Nat) :
    Nat × List Nat × Nat :=
  if input.length = 0 then (0, [], 0)
  else if inNull then (1, [], outSize0)
  else if outNull then (2, [], outSize0)
  else
    let r := nibbleRunBytes [] input
    match r.1 with
    | none => (7, r.2, outSize0)
    | some st =>
      if padAccepts st then (0, r.2, r.2.length) else (9, r.2, outSize0)

/-! ### The v1 table generator and the full-byte decoder

Translation of the BFS state numbering, `kByteDecodeTable` and
`kAccepting` generation of `huffman_table_gen_v1_main.cc`, and of the
`HuffmanCodec::Decode` loop of `huffman_codec.cc` that consumes them.
The C++ numbers trie nodes breadth-first (root = 0, children pushed in
bit order 0 then 1); a node is identified here by its path. -/

/-- Whether the trie has a node at a path. -/
def hasNodeAt (p : List Bool) : Bool := (nodeAt p).isSome

/-- The next BFS level: existing children, in 0-then-1 order, of each
node of the current level. -/
def nextLevel (ps : List (List Bool)) : List (List Bool) :=
  ps.foldr
    (fun p acc =>
      ((if hasNodeAt (p ++ [false]) then [p ++ [false]] else []) ++
       (if hasNodeAt (p ++ [true]) then [p ++ [true]] else []) ++ acc))
    []

/-- BFS traversal: concatenate `n` levels starting from a frontier. -/
def bfsAux : Nat → List (List Bool) → List (List Bool)
  | 0, _ => []
  | n + 1, frontier => frontier ++ bfsAux n (nextLevel frontier)

/-- All trie node paths in BFS order: the `nodes` vector of the
generator (maximum code length is 30, so 31 levels cover the trie). -/
def bfsPaths : List (List Bool) := bfsAux 31 [[]]

/-- The path of the node with BFS index `st` (the generator's
`nodes[st]`). -/
def statePath (st : Nat) : List Bool := bfsPaths.getD st []

/-- The BFS index of the node at path `p` (the generator's `index[n]`). -/
def stateIdx (p : List Bool) : Nat := bfsPaths.findIdx (fun q => q == p)

/-- The 8 bits of a byte, most significant first
(`for (int i = 7; i >= 0; --i)`). -/
def byteBits (byte : Nat) : List Bool :=
  (List.range 8).map (fun i => (byte >>> (7 - i)) % 2 = 1)

/-- The walk of the v1 byte-entry generation: feed bits through the
trie; a missing child is the error; a node carrying a symbol appends
`uint8_t(symbol)` — the symbol reduced `% 256`, so EOS (256) is stored
as 0 — and resets to the root. -/
def walkV1 (p : List Bool) (bs : List Bool) (emits : List Nat) :
    Option (List Bool × List Nat) :=
  match bs with
  | [] => some (p, emits)
  | b :: rest =>
    match stepBit p b with
    | none => none
    | some (p1, none) => walkV1 p1 rest emits
    | some (p1, some s) => walkV1 p1 rest (emits ++ [s % 256])

/-- One entry of `kByteDecodeTable`: `next_state`, `emit_count`
(`0xFF` = error sentinel) and the two symbol slots. -/
structure ByteDecodeEntry where
  next_state : Nat
  emit_count : Nat
  s0 : Nat
  s1 : Nat
deriving DecidableEq

/-- The error entry `{ 0, 0xFF, {0,0} }` of the generator. -/
def errorByteEntry : ByteDecodeEntry := ⟨0, 255, 0, 0⟩

/-- The generated `kByteDecodeTable` entry for `(state, byte)`:
walk the 8 bits of `byte` from `nodes[state]`. -/
def genByteEntry (st : Nat) (byte : Nat) : ByteDecodeEntry :=
  match walkV1 (statePath st) (byteBits byte) [] with
  | none => errorByteEntry
  | some (p, emits) => ⟨stateIdx p, emits.length, emits.getD 0 0, emits.getD 1 0⟩

/-- The `kAccepting` generation loop of the v1 generator: from
`nodes[st]`, feed up to 32 one-bits; a missing child stops with
`false`; reaching the EOS leaf gives `true`; any other symbol resets the
walk to the root and continues. -/
def acceptV1Aux : List Bool → Nat → Bool
  | _, 0 => false
  | cur, k + 1 =>
    match nodeAt (cur ++ [true]) with
    | none => false
    | some n =>
      match n.sym with
      | some s => if s = 256 then true else acceptV1Aux [] k
      | none => acceptV1Aux (cur ++ [true]) k

/-- The generated `kAccepting[st]` flag. -/
def kAcceptingV1 (st : Nat) : Bool := acceptV1Aux (statePath st) 32

/-- The flat-array lookup of `HuffmanCodec::Decode`:
`kByteDecodeTable[j]` where the generated array is laid out row-major
with 256 entries per state, so flat index `j` holds the entry for
`(j / 256, j % 256)`. -/
def byteTableFlat (j : Nat) : ByteDecodeEntry := genByteEntry (j / 256) (j % 256)

/-- The index `HuffmanCodec::Decode` consults for `(state, byte)`:
`state * 257 + byte` (the stride the decoder uses, line 227 of
`huffman_codec.cc`). -/
def ccConsultIdx (state byte : Nat) : Nat := state * 257 + byte

/-- The emitted octets of a non-error entry: the loop
`for (i < e.emit_count) out += e.symbols[i]` (the generator guarantees
`emit_count <= 2`). -/
def ccEmits (e : ByteDecodeEntry) : List Nat := List.take e.emit_count [e.s0, e.s1]

/-- The byte loop of `HuffmanCodec::Decode`: one flat-table lookup per
input byte at index `state * 257 + byte`; an `emit_count = 0xFF` entry
is the invalid-code error (`none`); otherwise emit and step. -/
def ccLoop : Nat → List Nat → Option (Nat × List Nat)
  | state, [] => some (state, [])
  | state, byte :: rest =>
    let e := byteTableFlat (ccConsultIdx state (byte % 256))
    if e.emit_count = 255 then none
    else
      match ccLoop e.next_state rest with
      | none => none
      | some (st1, out) => some (st1, ccEmits e ++ out)

/-- The flat indices consulted by the `HuffmanCodec::Decode` loop, in
order (stopping after an error entry). -/
def ccTrace : Nat → List Nat → List Nat
  | _, [] => []
  | state, byte :: rest =>
    let j := ccConsultIdx state (byte % 256)
    let e := byteTableFlat j
    if e.emit_count = 255 then [j]
    else j :: ccTrace e.next_state rest

/-- Decode result of `HuffmanCodec::Decode`: `none` models the
`InvalidArgumentError` returns (invalid code, or final state not
accepting); `some out` is a successful decode. -/
def ccDecode (input : List Nat) : Option (List Nat) :=
  match ccLoop 0 input with
  | none => none
  | some (st, out) => if kAcceptingV1 st then some out else none

/-! ### Length facts about the encoder

These lemmas track the output length of `FastEncode` through its
accumulator loop, for the length-bound claim. -/

/-- Total number of code bits the encoder accumulates for an input. -/
def totalBits (S : List Nat) : Nat := (S.map (fun b => len (b % 256))).sum

set_option maxRecDepth 100000 in
/-- Every byte's code length lies in `[5, 30]` (RFC 7541: symbols 0..255
have lengths 5..28, EOS alone has 30; the encoder only reads symbols
`byte % 256`). -/
theorem len_mod_bounds (b : Nat) : 5 ≤ len (b % 256) ∧ len (b % 256) ≤ 30 := by
  have h : b % 256 < 256 := Nat.mod_lt _ (by norm_num)
  have key : ∀ m < 256, 5 ≤ len m ∧ len m ≤ 30 := by decide
  exact key _ h

theorem totalBits_nil : totalBits [] = 0 := rfl

theorem totalBits_cons (b : Nat) (S : List Nat) :
    totalBits (b :: S) = len (b % 256) + totalBits S := by
  simp [totalBits]

/-- Bounds on the accumulated bit count. -/
theorem totalBits_bounds (S : List Nat) :
    5 * S.length ≤ totalBits S ∧ totalBits S ≤ 30 * S.length := by
  induction S with
  | nil => simp [totalBits]
  | cons b S ih =>
    have hb := len_mod_bounds b
    rw [totalBits_cons]
    simp only [List.length_cons]
    omega

/-- The flush loop keeps the bit count below 32 and writes four bytes
per 32 flushed bits. -/
theorem flush32Aux_spec (fuel : Nat) : ∀ (acc bits : Nat) (out : List Nat),
    bits ≤ fuel →
    (flush32Aux fuel acc bits out).2.1 = bits % 32 ∧
    (flush32Aux fuel acc bits out).2.2.length = out.length + 4 * (bits / 32) := by
  induction fuel with
  | zero =>
    intro acc bits out h
    have hb : bits = 0 := by omega
    subst hb
    simp [flush32Aux]
  | succ fuel ih =>
    intro acc bits out h
    by_cases h32 : 32 ≤ bits
    · have := ih (acc % 2 ^ (bits - 32)) (bits - 32)
        (out ++ [(acc >>> (bits - 32) % 2 ^ 32) >>> 24 % 256,
                 (acc >>> (bits - 32) % 2 ^ 32) >>> 16 % 256,
                 (acc >>> (bits - 32) % 2 ^ 32) >>> 8 % 256,
                 acc >>> (bits - 32) % 2 ^ 32 % 256]) (by omega)
      simp only [flush32Aux, if_pos h32]
      refine ⟨by rw [this.1]; omega, ?_⟩
      rw [this.2]
      simp only [List.length_append, List.length_cons, List.length_nil]
      omega
    · simp only [flush32Aux, if_neg h32]
      exact ⟨by omega, by omega⟩

/-- The `flush32` wrapper inherits the flush-loop specification. -/
theorem flush32_spec (acc bits : Nat) (out : List Nat) :
    (flush32 acc bits out).2.1 = bits % 32 ∧
    (flush32 acc bits out).2.2.length = out.length + 4 * (bits / 32) :=
  flush32Aux_spec bits acc bits out (Nat.le_refl _)

/-- Invariant of the encoder main loop: the pending bit count stays the
total accumulated bit count modulo 32, and eight times the output length
plus the pending count equals the total accumulated bit count. -/
theorem encFold_spec (S : List Nat) : ∀ (acc bits : Nat) (out : List Nat),
    bits ≤ 31 →
    (S.foldl encStep (acc, bits, out)).2.1 = (bits + totalBits S) % 32 ∧
    8 * (S.foldl encStep (acc, bits, out)).2.2.length +
        (S.foldl encStep (acc, bits, out)).2.1 =
      8 * out.length + bits + totalBits S := by
  induction S with
  | nil =>
    intro acc bits out h
    simp only [List.foldl_nil, totalBits_nil]
    constructor
    · omega
    · omega
  | cons b S ih =>
    intro acc bits out h
    have hlen := len_mod_bounds b
    rw [List.foldl_cons]
    have hstep : encStep (acc, bits, out) b =
        flush32 ((acc <<< len (b % 256) ||| code (b % 256)) % 2 ^ 64)
          (bits + len (b % 256)) out := rfl
    rw [hstep]
    obtain ⟨hf1, hf2⟩ := flush32_spec
      ((acc <<< len (b % 256) ||| code (b % 256)) % 2 ^ 64)
      (bits + len (b % 256)) out
    set r := flush32 ((acc <<< len (b % 256) ||| code (b % 256)) % 2 ^ 64)
      (bits + len (b % 256)) out with hr
    obtain ⟨ih1, ih2⟩ := ih r.1 r.2.1 r.2.2 (by omega)
    have hcollect : S.foldl encStep (r.1, r.2.1, r.2.2) = S.foldl encStep r := by
      congr 1
    rw [hcollect] at ih1 ih2
    rw [totalBits_cons]
    constructor
    · rw [ih1, hf1]
      omega
    · rw [ih2, hf2, hf1]
      omega

/-- Byte count written by the final-padding block: `bits / 8 + 1` for a
pending count in `[1, 31]` (including the slip that writes a full extra
`0xff` byte when `bits` is a positive multiple of 8). -/
theorem padTail_length (acc bits : Nat) (h1 : 1 ≤ bits) (h2 : bits ≤ 31) :
    (padTailBytes acc bits).length = bits / 8 + 1 := by
  unfold padTailBytes
  simp only [padLoop]
  split_ifs <;> simp <;> omega

/-! ### Claims -/

/-- Claim C1 (code bug).  The round-trip property fails: for the
single-byte input `&` (0x26, the only symbol with an 8-bit code), the
pending bit count after the main loop is 8, the padding slip of
`FastEncode` computes `pad = 8 - (8 & 7) = 8` and appends a spurious
all-ones byte, so the encoder emits `f8 ff` instead of `f8`; decoding
`f8 ff` then fails with the nibble EOS/padding error 9 instead of
returning `&`. -/
theorem claim_C1_roundtrip_fails_at_amp :
    fastEncodeBytes [38] = [248, 255] ∧
    fastDecode false false [248, 255] 0 = (9, [38], 0) ∧ (9 : Nat) ≠ 0 := by
  refine ⟨by decide, by decide, by decide⟩

/-- Claim C2 (code bug).  The encoder output is not always the
big-endian packing of B‖P: for input `&` the specified packing is the
single byte `f8` but `FastEncode` writes `f8 ff`.  The cited
"www.example.com" example itself does hold, byte for byte. -/
theorem claim_C2_wire_format :
    fastEncodeBytes [38] = [248, 255] ∧ specWireBytes [38] = [248] ∧
    fastEncodeBytes [119, 119, 119, 46, 101, 120, 97, 109, 112, 108, 101, 46, 99, 111, 109]
      = [241, 227, 194, 229, 242, 58, 107, 160, 171, 144, 244, 255] ∧
    specWireBytes [119, 119, 119, 46, 101, 120, 97, 109, 112, 108, 101, 46, 99, 111, 109]
      = [241, 227, 194, 229, 242, 58, 107, 160, 171, 144, 244, 255] := by
  refine ⟨by decide, by decide, by decide, by decide⟩

/-- Claim C3 (code bug).  The v1 generator does not mark transitions
reaching the EOS leaf as errors: from the state 24 one-bits deep (on the
EOS path), byte `0xff` walks through the EOS leaf; the generated entry
is an ordinary entry with `emit_count = 1` whose emitted octet is
`uint8_t(256) = 0`, not the error sentinel. -/
theorem claim_C3_eos_entry_not_error :
    walkV1 (List.replicate 24 true) (byteBits 255) []
      = some ([true, true], [256 % 256]) ∧
    genByteEntry (stateIdx (List.replicate 24 true)) 255
      = ⟨6, 1, 0, 0⟩ ∧
    genByteEntry (stateIdx (List.replicate 24 true)) 255 ≠ errorByteEntry := by
  refine ⟨by decide, by decide, by decide⟩

/-- Claim C4 (code bug).  Decoding the single byte `0x00` does not
return `InvalidPadding`: the padding loop of `FastDecode` ignores
symbol emissions and tries every pad length 0..7, so from the state
`000` two '1' bits complete the code of `a` and land on the (accepting)
root; the call succeeds, emits the byte `0` (0x30) and reports one
output byte. -/
theorem claim_C4_zero_padding_accepted :
    fastDecode false false [0] 7 = (0, [48], 1) := by decide

/-- Claim C5, counterexample.  An input ending in 27 one-bits beyond the
last completed code (the code of `0`) is accepted, refuting "any input
ending in 8 or more '1' bits is rejected": the nibble loop ends in the
state 27 one-bits deep, from which 3 more padding ones reach the EOS
leaf and reset to the accepting root. -/
theorem claim_C5_counterexample :
    (nibbleRunBytes [] [7, 255, 255, 255]).1 = some (List.replicate 27 true) ∧
    8 ≤ 27 ∧
    fastDecode false false [7, 255, 255, 255] 0 = (0, [48], 1) := by
  refine ⟨by decide, by decide, by decide⟩

/-- Claim C5, amended.  An encoded input whose nibble main loop ends in
a run of `t` one-bits beyond the last completed code with `8 ≤ t ≤ 22`
is rejected with the nibble EOS/padding error 9 (for `t ≥ 23` the
padding loop can reach the EOS leaf within 7 further one-bits and
accepts). -/
theorem claim_C5_overlong_padding_bounded (input : List Nat) (t : Nat)
    (hrun : (nibbleRunBytes [] input).1 = some (List.replicate t true))
    (h8 : 8 ≤ t) (h22 : t ≤ 22) :
    (fastDecode false false input 0).1 = 9 := by
  have hkey : ∀ i < 15, padAccepts (List.replicate (8 + i) true) = false := by decide
  have hpad : padAccepts (List.replicate t true) = false := by
    have h := hkey (t - 8) (by omega)
    rwa [show 8 + (t - 8) = t by omega] at h
  cases input with
  | nil =>
    exfalso
    have : (none : Option (List Bool)) = some (List.replicate t true) ∨
        (some ([] : List Bool)) = some (List.replicate t true) := by
      right; exact hrun
    rcases this with h | h
    · exact Option.noConfusion h
    · have := Option.some.inj h
      have hl : (0 : Nat) = t := by
        have := congrArg List.length this
        simpa using this
      omega
  | cons b rest =>
    have hred : fastDecode false false (b :: rest) 0 =
        (match (nibbleRunBytes [] (b :: rest)).1 with
         | none => ((7 : Nat), (nibbleRunBytes [] (b :: rest)).2, (0 : Nat))
         | some st =>
           if padAccepts st then
             ((0 : Nat), (nibbleRunBytes [] (b :: rest)).2,
               (nibbleRunBytes [] (b :: rest)).2.length)
           else ((9 : Nat), (nibbleRunBytes [] (b :: rest)).2, (0 : Nat))) := rfl
    rw [hred, hrun]
    simp [hpad]

/-- Claim C5, witness for the amended theorem at the concrete input
`[0xff]` (eight one-bits). -/
theorem claim_C5_witness :
    (nibbleRunBytes [] [255]).1 = some (List.replicate 8 true) ∧
    (fastDecode false false [255] 0).1 = 9 :=
  ⟨by decide,
   claim_C5_overlong_padding_bounded [255] 8 (by decide) (by decide) (by decide)⟩

/-- Claim C6 (code bug).  The full-byte decode loop does not consult
index `state * 256 + byte`: decoding `[0x00, 0x00]` reaches state 7 (the
node `000`) after the first byte and then consults flat index
`7 * 257 + 0 = 1799`, not `7 * 256 + 0 = 1792` — the stride of the
lookup (257) disagrees with the generated row length (256). -/
theorem claim_C6_lookup_stride :
    (genByteEntry 0 0).next_state = 7 ∧
    ccTrace 0 [0, 0] = [ccConsultIdx 0 0, ccConsultIdx 7 0] ∧
    ccConsultIdx 7 0 = 1799 ∧ 1799 ≠ 7 * 256 + 0 := by
  refine ⟨by decide, by decide, by decide, by decide⟩

/-- Claim C7 (code bug).  The two decoder backends disagree on the valid
input `[0x07, 0xc7]` (the exact wire encoding of the two bytes `0&`):
the nibble decoder returns `0&`, while the full-byte decoder — reading
misaligned entries because of its 257 stride — rejects the input. -/
theorem claim_C7_backend_divergence :
    specWireBytes [48, 38] = [7, 199] ∧
    fastDecode false false [7, 199] 0 = (0, [48, 38], 2) ∧
    ccDecode [7, 199] = none := by
  refine ⟨by decide, by decide, by decide⟩

/-- Claim C8, counterexample.  For 32 copies of the symbol `0` (code
length 5), the encoder emits exactly 20 bytes (160 bits, no padding),
below the claimed lower bound `⌈(32·5 + 7)/8⌉ = 21`. -/
theorem claim_C8_counterexample :
    (fastEncodeBytes (List.replicate 32 48)).length = 20 ∧
    20 < (5 * 32 + 7 + 7) / 8 := by
  refine ⟨by decide, by decide⟩

/-- Claim C8, amended.  For every input S, the encoded length satisfies
`|encode(S)| ≤ ⌈(|S|·30 + 7)/8⌉` (written `(30·|S| + 7 + 7) / 8` in
natural-number division) and `|encode(S)| ≥ ⌈(|S|·5)/8⌉` (written
`(5·|S| + 7) / 8`); the claimed lower bound `⌈(|S|·5 + 7)/8⌉` is one too
high when `5·|S|` is a positive multiple of 8 and no padding occurs. -/
theorem claim_C8_length_bounds (S : List Nat) :
    (fastEncodeBytes S).length ≤ (30 * S.length + 7 + 7) / 8 ∧
    (5 * S.length + 7) / 8 ≤ (fastEncodeBytes S).length := by
  obtain ⟨hfold1, hfold2⟩ := encFold_spec S 0 0 [] (by omega)
  obtain ⟨hT1, hT2⟩ := totalBits_bounds S
  unfold fastEncodeBytes
  set r := S.foldl encStep (0, 0, []) with hr
  by_cases hpos : 0 < r.2.1
  · rw [if_pos hpos, List.length_append,
      padTail_length r.1 r.2.1 (by omega) (by omega)]
    simp only [List.length_nil] at hfold2
    omega
  · rw [if_neg hpos]
    simp only [List.length_nil] at hfold2
    omega

/-- Claim C9, counterexample.  A decode call that fails its null-input
check returns error 1 but leaves the caller's `out_size` value (here 5)
untouched, so the reported byte count on error is not zero. -/
theorem claim_C9_counterexample :
    fastDecode true false [7] 5 = (1, [], 5) ∧ (5 : Nat) ≠ 0 := by
  refine ⟨by decide, by decide⟩

/-- Claim C9, amended.  Whenever an encode call returns an error its
reported `out_size` is zero, but a decode call that returns an error
leaves `out_size` unchanged at the caller's value. -/
theorem claim_C9_error_out_size (inN outN : Bool) (input : List Nat) (sz0 : Nat) :
    ((fastEncode inN outN input).1 ≠ 0 → (fastEncode inN outN input).2.2 = 0) ∧
    ((fastDecode inN outN input sz0).1 ≠ 0 →
      (fastDecode inN outN input sz0).2.2 = sz0) := by
  constructor
  · intro herr
    unfold fastEncode at *
    split_ifs at * <;> first | rfl | exact absurd rfl herr
  · intro herr
    by_cases hlen : input.length = 0
    · exfalso
      apply herr
      unfold fastDecode
      rw [if_pos hlen]
    · by_cases hin : inN = true
      · unfold fastDecode
        rw [if_neg hlen, if_pos hin]
      · by_cases hout : outN = true
        · unfold fastDecode
          rw [if_neg hlen, if_neg hin, if_pos hout]
        · have hred : fastDecode inN outN input sz0 =
              (match (nibbleRunBytes [] input).1 with
               | none => ((7 : Nat), (nibbleRunBytes [] input).2, sz0)
               | some st =>
                 if padAccepts st then
                   ((0 : Nat), (nibbleRunBytes [] input).2,
                     (nibbleRunBytes [] input).2.length)
                 else ((9 : Nat), (nibbleRunBytes [] input).2, sz0)) := by
            unfold fastDecode
            rw [if_neg hlen, if_neg hin, if_neg hout]
          rw [hred] at herr ⊢
          cases hrun : (nibbleRunBytes [] input).1 with
          | none => rfl
          | some st =>
            simp only [hrun] at herr
            by_cases hp : padAccepts st = true
            · simp only [if_pos hp] at herr
              exact absurd rfl herr
            · simp only [if_neg hp]

/-- Claim C9, witness: the amended theorem applied to an encode error
(null input, `out_size` becomes 0) and a decode error (null input,
`out_size` stays 3). -/
theorem claim_C9_witness :
    (fastEncode true false [7]).2.2 = 0 ∧ (fastDecode true false [7] 3).2.2 = 3 :=
  ⟨(claim_C9_error_out_size true false [7] 0).1 (by decide),
   (claim_C9_error_out_size true false [7] 3).2 (by decide)⟩

/-- Claim C10 (confirmed).  Both `FastEncode` and `FastDecode` return
success with zero output count on empty input, even with null pointers
(the empty-input check precedes the null checks and writes nothing), and
the input-null error (code 1) is returned exactly when the input pointer
is null and the length is non-zero. -/
theorem claim_C10_empty_before_null (inN outN : Bool) (input : List Nat) (sz0 : Nat) :
    fastEncode inN outN [] = (0, [], 0) ∧
    fastDecode inN outN [] sz0 = (0, [], 0) ∧
    ((fastEncode inN outN input).1 = 1 ↔ inN = true ∧ input ≠ []) ∧
    ((fastDecode inN outN input sz0).1 = 1 ↔ inN = true ∧ input ≠ []) := by
  refine ⟨rfl, rfl, ?_, ?_⟩
  · cases input with
    | nil => simp [fastEncode]
    | cons b l =>
      cases inN
      · cases outN <;> simp [fastEncode]
      · simp [fastEncode]
  · cases input with
    | nil => simp [fastDecode]
    | cons b l =>
      cases inN
      · cases outN
        · have hred : fastDecode false false (b :: l) sz0 =
              (match (nibbleRunBytes [] (b :: l)).1 with
               | none => ((7 : Nat), (nibbleRunBytes [] (b :: l)).2, sz0)
               | some st =>
                 if padAccepts st then
                   ((0 : Nat), (nibbleRunBytes [] (b :: l)).2,
                     (nibbleRunBytes [] (b :: l)).2.length)
                 else ((9 : Nat), (nibbleRunBytes [] (b :: l)).2, sz0)) := rfl
          rw [hred]
          cases hrun : (nibbleRunBytes [] (b :: l)).1 with
          | none => simp
          | some st =>
            by_cases hp : padAccepts st = true
            · simp [hp]
            · simp [hp]
        · simp [fastDecode]
      · simp [fastDecode]

end H2v
